import Mathlib

/-!
Verification of the dirfuzz web path brute-forcing engine.

This file shallowly embeds the parts of the Go sources that the checked
properties are about, and proves (or refutes) each property over the
embedding:

* `internal/filter/smart.go` — soft-404 smart filter (calibration and
  classification),
* `internal/runner/fixopost_bsd.go` (filter part) — duplicate filter,
* `internal/scanner/throttle.go` — adaptive throttler,
* `internal/crawl/crawl.go` — HTML link extraction,
* `internal/runner/runner.go` — per-directory filter-chain rebuild,
* the requester's response fingerprint computation,
* `internal/resume/resume.go` — resume state.

Go `int`/`int64` values that are non-negative throughout the program
(lengths, counts, status codes, delays in milliseconds) are modelled as
`Nat`; `|a - b|` on such values becomes `Nat.dist`.  The 16-byte MD5
body hash is only ever compared for equality, so it is modelled as an
abstract `Nat` digest.
-/

set_option linter.unusedVariables false

/-! ## Smart filter data model (internal/filter/smart.go) -/

/-- `matchMode` from smart.go: how a calibration baseline matches results. -/
inductive MatchMode where
  /-- all calibration bodies were byte-identical -/
  | matchHashExact
  /-- bodies varied but lengths converged -/
  | matchFuzzyLength
deriving DecidableEq, Repr

/-- `baseline` from smart.go. -/
structure Baseline where
  statusCode : Nat
  contentLength : Nat
  bodyHash : Nat
  wordCount : Nat
  lineCount : Nat
  mode : MatchMode
deriving DecidableEq, Repr

/-- `SmartFilter` from smart.go: calibrated baselines plus the byte
tolerance for fuzzy length matching. -/
structure SmartFilter where
  baselines : List Baseline
  threshold : Nat
deriving DecidableEq, Repr

/-- `probeResult` from smart.go: the fingerprint of one calibration probe. -/
structure ProbeResult where
  statusCode : Nat
  contentLength : Nat
  bodyHash : Nat
  wordCount : Nat
  lineCount : Nat
deriving DecidableEq, Repr

/-- `scanner.ScanResult` (internal/scanner/result.go), restricted to the
fields that are ever read by the filters under verification.  The Go
struct additionally carries request metadata (method, host, path, URL),
the retained body, the redirect URL, the duration and the error/filtered
bookkeeping, none of which the smart or duplicate filter reads. -/
structure ScanResult where
  statusCode : Nat
  contentLength : Nat
  bodyHash : Nat
  wordCount : Nat
  lineCount : Nat
deriving DecidableEq, Repr

/-- `medianInt`/`medianInt64` from smart.go: sort ascending and take the
element at index `len/2`.  For `Nat` values every ascending sort of a
list yields the same list, so one function models both. -/
def medianNat (vals : List Nat) : Nat :=
  (vals.insertionSort (· ≤ ·)).getD (vals.length / 2) 0

/-- The group of calibration probes with the given status code, in probe
order — `groups[code]` built by the grouping loop of `buildSmartFilter`. -/
def groupFor (results : List ProbeResult) (code : Nat) : List ProbeResult :=
  results.filter (fun r => r.statusCode == code)

/-- The status codes appearing among the probe results (the key set of the
`groups` map in `buildSmartFilter`).  Go iterates map keys in unspecified
order; the order of this list only affects the order of the produced
baselines, never their set. -/
def statusCodesOf (results : List ProbeResult) : List Nat :=
  (results.map (·.statusCode)).dedup

/-- The per-group body of `buildSmartFilter`'s loop: a group with fewer
than 2 members is skipped; if all body hashes agree the baseline is
`matchHashExact` built from the first member; otherwise the medians are
taken and the baseline is `matchFuzzyLength` provided every probe's
content length is within `threshold` bytes of the median length.
A fuzzy baseline's `bodyHash` is the Go zero value, modelled as `0`. -/
def baselineForGroup (code : Nat) (group : List ProbeResult) (threshold : Nat) :
    Option Baseline :=
  match group with
  | [] => none
  | g0 :: _ =>
    if group.length < 2 then none
    else if group.all (fun g => g.bodyHash == g0.bodyHash) then
      some { statusCode := code, contentLength := g0.contentLength,
             bodyHash := g0.bodyHash, wordCount := g0.wordCount,
             lineCount := g0.lineCount, mode := .matchHashExact }
    else
      let lengths := group.map (·.contentLength)
      let medianLen := medianNat lengths
      if lengths.all (fun l => Nat.dist l medianLen ≤ threshold) then
        some { statusCode := code, contentLength := medianLen, bodyHash := 0,
               wordCount := medianNat (group.map (·.wordCount)),
               lineCount := medianNat (group.map (·.lineCount)),
               mode := .matchFuzzyLength }
      else none

/-- `buildSmartFilter` from smart.go.  (The Go function also receives the
total probe count, used only in the text of the first error message.) -/
def buildSmartFilter (results : List ProbeResult) (threshold : Nat) :
    Except String SmartFilter :=
  if results.length < 2 then
    .error "not enough calibration probes succeeded, need at least 2"
  else
    let baselines := (statusCodesOf results).filterMap
      (fun c => baselineForGroup c (groupFor results c) threshold)
    if baselines.isEmpty then
      .error "calibration could not establish any baselines"
    else
      .ok { baselines := baselines, threshold := threshold }

/-- The per-baseline branch of `SmartFilter.ShouldFilter`'s `switch`. -/
def shouldFilterByBaseline (threshold : Nat) (b : Baseline) (r : ScanResult) : Bool :=
  match b.mode with
  | .matchHashExact => r.bodyHash == b.bodyHash
  | .matchFuzzyLength =>
    let lengthOK := Nat.dist r.contentLength b.contentLength ≤ threshold
    let wordOK := Nat.dist r.wordCount b.wordCount ≤ max 5 (b.wordCount / 20)
    let lineOK := Nat.dist r.lineCount b.lineCount ≤ max 2 (b.lineCount / 10)
    let score := (if lengthOK then 1 else 0) + (if wordOK then 1 else 0)
      + (if lineOK then 1 else 0)
    decide (2 ≤ score)

/-- `SmartFilter.ShouldFilter` from smart.go: an empty 200 is always
filtered; otherwise the first baseline with matching status code decides
(and a result matching no baseline passes). -/
def shouldFilter (sf : SmartFilter) (r : ScanResult) : Bool :=
  if r.statusCode == 200 && r.contentLength == 0 then true
  else
    match sf.baselines.find? (fun b => b.statusCode == r.statusCode) with
    | some b => shouldFilterByBaseline sf.threshold b r
    | none => false

/-! ## Throttler (internal/scanner/throttle.go)

Delays are modelled in milliseconds (`time.Duration` at millisecond
granularity).  The `quiet` field and the `fmt.Fprintf` progress messages
have no effect on the throttling state and are omitted. -/

/-- `Throttler` state. -/
structure Throttler where
  baseDelay : Nat
  currentDelay : Nat
  maxDelay : Nat
  /-- consecutive throttle signals -/
  consecutive : Nat
  enabled : Bool
deriving DecidableEq, Repr

/-- `NewThrottler`: `currentDelay` starts at `baseDelay`, `maxDelay` is 30 s. -/
def newThrottler (baseDelay : Nat) (enabled : Bool) : Throttler :=
  { baseDelay := baseDelay, currentDelay := baseDelay, maxDelay := 30000,
    consecutive := 0, enabled := enabled }

/-- `Throttler.Delay`. -/
def Throttler.delay (t : Throttler) : Nat :=
  if ¬ t.enabled then t.baseDelay else t.currentDelay

/-- The exponential back-off step shared by `RecordStatus` and
`RecordError`: double the delay, raise to at least 500 ms, cap at
`maxDelay`. -/
def backoffDelay (t : Throttler) : Nat :=
  min t.maxDelay (max 500 (2 * t.currentDelay))

/-- `Throttler.RecordStatus`. -/
def Throttler.recordStatus (t : Throttler) (statusCode : Nat) : Throttler :=
  if ¬ t.enabled then t
  else if statusCode = 429 ∨ statusCode = 503 then
    { t with consecutive := t.consecutive + 1, currentDelay := backoffDelay t }
  else if 0 < t.consecutive then
    { t with consecutive := 0,
             currentDelay := max t.baseDelay (t.currentDelay / 2) }
  else t

/-- `Throttler.RecordError`. -/
def Throttler.recordError (t : Throttler) : Throttler :=
  if ¬ t.enabled then t
  else
    let t := { t with consecutive := t.consecutive + 1 }
    if 3 ≤ t.consecutive then { t with currentDelay := backoffDelay t } else t

/-- One recorded observation: a response status or a connection error. -/
inductive ThrottleOp where
  | status (code : Nat)
  | error
deriving DecidableEq, Repr

/-- Apply a sequence of `RecordStatus`/`RecordError` calls. -/
def applyOps (t : Throttler) (ops : List ThrottleOp) : Throttler :=
  ops.foldl (fun t op =>
    match op with
    | .status code => t.recordStatus code
    | .error => t.recordError) t

/-! ## Duplicate filter (internal/runner/fixopost_bsd.go, package filter)

The two Go count maps are modelled as association lists; a missing key
has count 0. -/

/-- Increment the count stored under `k` (maps-with-default-0 semantics of
`m[k]++`). -/
def bumpCount {κ : Type} [DecidableEq κ] (m : List (κ × Nat)) (k : κ) :
    List (κ × Nat) :=
  match m with
  | [] => [(k, 1)]
  | (k', n) :: rest =>
    if k' = k then (k', n + 1) :: rest else (k', n) :: bumpCount rest k

/-- Look up the count stored under `k` (0 when absent). -/
def getCount {κ : Type} [DecidableEq κ] (m : List (κ × Nat)) (k : κ) : Nat :=
  match m with
  | [] => 0
  | (k', n) :: rest => if k' = k then n else getCount rest k

/-- `DuplicateFilter` state: `seen` is keyed by `responseKey`
`(statusCode, bodyHash)`, `fuzzySeen` by `fuzzyKey`
`(statusCode, lineCount, wordCount / 5)`. -/
structure DuplicateFilter where
  seen : List ((Nat × Nat) × Nat)
  fuzzySeen : List ((Nat × Nat × Nat) × Nat)
  threshold : Nat
  fuzzyThreshold : Nat
deriving DecidableEq, Repr

/-- `NewDuplicateFilter`: fuzzy detection allows `3 × threshold`
occurrences, at least 5. -/
def newDuplicateFilter (threshold : Nat) : DuplicateFilter :=
  { seen := [], fuzzySeen := [], threshold := threshold,
    fuzzyThreshold := max (threshold * 3) 5 }

/-- `responseKey` of a result. -/
def exactKeyOf (r : ScanResult) : Nat × Nat := (r.statusCode, r.bodyHash)

/-- `fuzzyKey` of a result. -/
def fuzzyKeyOf (r : ScanResult) : Nat × Nat × Nat :=
  (r.statusCode, r.lineCount, r.wordCount / 5)

/-- `DuplicateFilter.ShouldFilter`: increment both counters, then filter
when either exceeds its threshold.  Returns the verdict together with the
updated state (the Go method mutates the receiver under a lock). -/
def dupShouldFilter (d : DuplicateFilter) (r : ScanResult) :
    Bool × DuplicateFilter :=
  let seen := bumpCount d.seen (exactKeyOf r)
  let fuzzySeen := bumpCount d.fuzzySeen (fuzzyKeyOf r)
  let exactCount := getCount seen (exactKeyOf r)
  let fuzzyCount := getCount fuzzySeen (fuzzyKeyOf r)
  (decide (d.threshold < exactCount) || decide (d.fuzzyThreshold < fuzzyCount),
   { d with seen := seen, fuzzySeen := fuzzySeen })

/-- Run the duplicate filter over a stream of results, yielding the
verdict for each in order. -/
def dupProcess (d : DuplicateFilter) : List ScanResult → List Bool
  | [] => []
  | r :: rest =>
    (dupShouldFilter d r).1 :: dupProcess (dupShouldFilter d r).2 rest

/-! ## Filter chain rebuild in recursion (internal/runner/runner.go)

`runRecursive` builds the per-directory chain from the parent chain with
a type switch on `*filter.SmartFilter`.  The chain elements are modelled
as a sum of the filter kinds the runner installs; only the smart and
duplicate variants carry state the claims inspect. -/

/-- One element of a `filter.Chain`. -/
inductive GoFilter where
  | smart (sf : SmartFilter)
  | dup (d : DuplicateFilter)
  | statusF (inc exc : List Nat)
  | sizeF (excludeSizes : List Nat)
  | bodyMatch (pat : String)
  | bodyExclude (pat : String)
deriving DecidableEq, Repr

/-- The `f.(*filter.SmartFilter)` type test in `runRecursive`. -/
def GoFilter.isSmart : GoFilter → Bool
  | .smart _ => true
  | _ => false

/-- The per-directory chain construction of `runRecursive`
(runner.go:452-468): copy every parent filter that is not a
`*filter.SmartFilter`, then append a freshly calibrated smart filter when
smart filtering is enabled and the re-calibration succeeded
(`calibrated = some sf`; `none` models a calibration error, in which case
no smart filter is added). -/
def buildDirChain (parent : List GoFilter) (smartEnabled : Bool)
    (calibrated : Option SmartFilter) : List GoFilter :=
  parent.filter (fun f => ¬ f.isSmart) ++
    (match smartEnabled, calibrated with
     | true, some sf => [GoFilter.smart sf]
     | _, _ => [])

/-! ## Resume state (internal/resume/resume.go)

The `done` map (`map[string]struct{}`) is modelled as the list of keys
that were inserted; only membership is ever queried. -/

/-- `resume.State`, without the file-path and mutex plumbing. -/
structure ResumeState where
  url : String
  completedPaths : List String
  totalPaths : Nat
  done : List String
deriving DecidableEq, Repr

/-- `resume.New`: fresh empty state. -/
def resumeNew (url : String) (totalPaths : Nat) : ResumeState :=
  { url := url, completedPaths := [], totalPaths := totalPaths, done := [] }

/-- `resume.Load` after a successful JSON parse: the decoded
`completed_paths` array is kept verbatim and the `done` set is built from
its entries (set membership over a list with duplicates equals membership
over the list itself). -/
def resumeLoad (url : String) (totalPaths : Nat)
    (completedPaths : List String) : ResumeState :=
  { url := url, completedPaths := completedPaths, totalPaths := totalPaths,
    done := completedPaths }

/-- `State.MarkCompleted`: record a path as done unless already present. -/
def markCompleted (s : ResumeState) (path : String) : ResumeState :=
  if s.done.contains path then s
  else { s with done := path :: s.done,
                completedPaths := s.completedPaths ++ [path] }

/-! ## Link extraction (internal/crawl/crawl.go)

Bodies and URLs are modelled as character lists.  The three regular
expressions `(?i)href\s*=\s*["']([^"']+)["']` (and likewise for `src`,
`action`) are simple enough to model directly: the character class
`[^"']+` can never cross the closing quote, so matching is deterministic.
`net/url.Parse` / `ResolveReference` are modelled for the hierarchical
URLs the crawler handles; percent-escape decoding, host validation and
scheme lower-casing are not modelled (none of the checked properties
depends on them). -/

/-- Character lists standing for Go strings in the crawler model. -/
abbrev Chars := List Char

/-- `\s` of Go's regexp package: `[\t\n\f\r ]`. -/
def isRegexSpace (c : Char) : Bool :=
  c == '\t' || c == '\n' || c == '\x0c' || c == '\r' || c == ' '

/-- Whitespace recognised by `unicode.IsSpace` (used by
`strings.TrimSpace`), restricted to the Latin-1 range. -/
def isGoSpace (c : Char) : Bool :=
  c == ' ' || c == '\t' || c == '\n' || c == '\x0b' || c == '\x0c'
    || c == '\r' || c == '\u0085' || c == '\u00A0'

/-- `strings.TrimSpace`. -/
def trimSpaceChars (s : Chars) : Chars :=
  ((s.dropWhile isGoSpace).reverse.dropWhile isGoSpace).reverse

/-- `strings.ToLower`, ASCII range. -/
def lowerChars (s : Chars) : Chars := s.map Char.toLower

/-- Case-insensitive match of the (lowercase) literal `attr` at the head
of `s`; returns the remaining characters on success. -/
def stripCI : Chars → Chars → Option Chars
  | [], s => some s
  | _ :: _, [] => none
  | a :: as, c :: cs => if c.toLower == a then stripCI as cs else none

/-- Try to match `attr\s*=\s*["']([^"']+)["']` at the head of `s`.  On
success returns the captured value and the characters following the
whole match. -/
def matchAttrAt (attr : Chars) (s : Chars) : Option (Chars × Chars) :=
  match stripCI attr s with
  | none => none
  | some rest =>
    match rest.dropWhile isRegexSpace with
    | '=' :: rest2 =>
      match rest2.dropWhile isRegexSpace with
      | q :: rest3 =>
        if q == '"' || q == '\'' then
          let content := rest3.takeWhile (fun c => !(c == '"' || c == '\''))
          match rest3.drop content.length with
          | q2 :: rest4 =>
            if !content.isEmpty && (q2 == '"' || q2 == '\'') then
              some (content, rest4)
            else none
          | [] => none
        else none
      | [] => none
    | _ => none

/-- Scan left to right for non-overlapping matches of the attribute
pattern, as `FindAllStringSubmatch` does: after a match the scan resumes
right after it, otherwise it advances one character.  Every step consumes
at least one character, so `s.length` fuel suffices. -/
def scanAttr (attr : Chars) : Nat → Chars → List Chars
  | 0, _ => []
  | _, [] => []
  | fuel + 1, c :: rest =>
    match matchAttrAt attr (c :: rest) with
    | some (cap, after) => cap :: scanAttr attr fuel after
    | none => scanAttr attr fuel rest

/-- The raw attribute values found by the three `linkPatterns`, in
pattern order (`href`, then `src`, then `action`). -/
def rawRefs (body : Chars) : List Chars :=
  scanAttr "href".toList body.length body
    ++ scanAttr "src".toList body.length body
    ++ scanAttr "action".toList body.length body

/-- `net/url.URL`, restricted to the components the crawler reads.
`opq` is the `Opaque` component; `host` includes any port. -/
structure GoURL where
  scheme : Chars := []
  opq : Chars := []
  host : Chars := []
  path : Chars := []
  query : Chars := []
  fragment : Chars := []
deriving DecidableEq, Repr

/-- Split at the first occurrence of `sep`: returns the part before it
and, when found, the part after it (`strings.Cut`). -/
def cutChar (sep : Char) : Chars → Chars × Option Chars
  | [] => ([], none)
  | c :: rest =>
    if c == sep then ([], some rest)
    else
      let (pre, post) := cutChar sep rest
      (c :: pre, post)

/-- Helper for `getScheme` of net/url: scan for a ':' preceded only by
scheme characters; `acc` holds the scanned characters in reverse.
`none` models the "missing protocol scheme" error for a leading ':';
`some none` means the URL has no scheme. -/
def getSchemeAux (acc : Chars) : Chars → Option (Option (Chars × Chars))
  | [] => some none
  | c :: rest =>
    if c.isAlpha then getSchemeAux (c :: acc) rest
    else if c.isDigit || c == '+' || c == '-' || c == '.' then
      if acc.isEmpty then some none else getSchemeAux (c :: acc) rest
    else if c == ':' then
      if acc.isEmpty then none else some (some (acc.reverse, rest))
    else some none

/-- `getScheme` of net/url. -/
def getScheme (s : Chars) : Option (Option (Chars × Chars)) :=
  getSchemeAux [] s

/-- ASCII control bytes make `net/url.Parse` fail. -/
def hasCTL (s : Chars) : Bool :=
  s.any (fun c => decide (c.toNat < 32) || decide (c.toNat = 127))

/-- The host part of an authority: everything after the last '@'
(userinfo is dropped, as in net/url; host validation is not modelled). -/
def hostOfAuthority (auth : Chars) : Chars :=
  let (revHost, rest) := cutChar '@' auth.reverse
  match rest with
  | none => auth
  | some _ => revHost.reverse

/-- Model of `net/url.Parse`: split off the fragment, extract the scheme,
split off the query, then parse an authority-rooted, opaque, or
rooted/relative path, with net/url's error cases for a leading ':',
control characters and a ':' in the first segment of a scheme-less
relative reference. -/
def parseURL (s : Chars) : Option GoURL :=
  if hasCTL s then none
  else
    let (beforeFrag, frag) := cutChar '#' s
    let fragment := frag.getD []
    match getScheme beforeFrag with
    | none => none
    | some schemeSplit =>
      let scheme := (schemeSplit.map Prod.fst).getD []
      let afterScheme := (schemeSplit.map Prod.snd).getD beforeFrag
      let (rest, q) := cutChar '?' afterScheme
      let query := q.getD []
      if rest.take 1 ≠ ['/'] ∧ scheme ≠ [] then
        some { scheme := scheme, opq := rest, host := [], path := [],
               query := query, fragment := fragment }
      else if rest.take 1 ≠ ['/'] ∧ ((cutChar '/' rest).1.contains ':') then
        none
      else if (scheme ≠ [] ∨ rest.take 3 ≠ ['/', '/', '/'])
          ∧ rest.take 2 = ['/', '/'] then
        let afterSlashes := rest.drop 2
        let (auth, pathRest) := cutChar '/' afterSlashes
        let path := match pathRest with
          | none => []
          | some p => '/' :: p
        some { scheme := scheme, opq := [], host := hostOfAuthority auth,
               path := path, query := query, fragment := fragment }
      else
        some { scheme := scheme, opq := [], host := [], path := rest,
               query := query, fragment := fragment }

/-- Split a list at every element satisfying `p`
(`strings.Cut` iterated, as in net/url's dot-segment loop). -/
def splitOnP {α : Type} (p : α → Bool) : List α → List (List α)
  | [] => [[]]
  | c :: rest =>
    if p c then [] :: splitOnP p rest
    else
      match splitOnP p rest with
      | h :: t => (c :: h) :: t
      | [] => [[c]]

/-- Everything up to and including the last '/' of `base`
(`base[:strings.LastIndex(base, "/")+1]`). -/
def dirOf (base : Chars) : Chars :=
  (base.reverse.dropWhile (fun c => !(c == '/'))).reverse

/-- `resolvePath` of net/url: RFC 3986 path merge followed by
remove-dot-segments.  The Go code builds the output behind a fixed
leading '/' and finally collapses a doubled slash right after it; the
written segments are tracked here as a list with the same final
collapse. -/
def resolvePath (base ref : Chars) : Chars :=
  let full :=
    if ref = [] then base
    else if ref.take 1 = ['/'] then ref
    else dirOf base ++ ref
  if full = [] then []
  else
    let segs := splitOnP (fun c => c == '/') full
    let acc := segs.foldl (fun acc elem =>
      if elem = ['.'] then acc
      else if elem = ['.', '.'] then acc.dropLast
      else acc ++ [elem]) ([] : List Chars)
    let acc := if segs.getLastD [] = ['.'] ∨ segs.getLastD [] = ['.', '.'] then
        acc ++ [[]]
      else acc
    let r := '/' :: List.intercalate ['/'] acc
    match r with
    | '/' :: '/' :: rest => '/' :: rest
    | _ => r

/-- `URL.ResolveReference` of net/url (userinfo omitted). -/
def resolveReference (u ref : GoURL) : GoURL :=
  let scheme := if ref.scheme = [] then u.scheme else ref.scheme
  if ref.scheme ≠ [] ∨ ref.host ≠ [] then
    { ref with scheme := scheme, path := resolvePath ref.path [] }
  else if ref.opq ≠ [] then
    { ref with scheme := scheme, host := [], path := [] }
  else
    let query := if ref.path = [] ∧ ref.query = [] then u.query else ref.query
    let fragment :=
      if ref.path = [] ∧ ref.query = [] ∧ ref.fragment = [] then u.fragment
      else ref.fragment
    if ref.path = [] ∧ u.opq ≠ [] then
      { scheme := scheme, opq := u.opq, host := [], path := [],
        query := query, fragment := fragment }
    else
      { scheme := scheme, opq := [], host := u.host,
        path := resolvePath u.path ref.path, query := query,
        fragment := fragment }

/-- The skip test at the top of `ExtractPaths`'s inner loop: anchors and
non-HTTP URIs (checked case-insensitively via `strings.ToLower`). -/
def skipRef (raw : Chars) : Bool :=
  "javascript:".toList.isPrefixOf (lowerChars raw)
    || "mailto:".toList.isPrefixOf (lowerChars raw)
    || "data:".toList.isPrefixOf (lowerChars raw)
    || "#".toList.isPrefixOf raw

/-- The per-reference body of `ExtractPaths`'s inner loop: trim, skip
anchors/non-HTTP URIs, parse, resolve against the base, reject
cross-origin hosts, then strip trailing slashes and one leading slash,
rejecting empty results. -/
def processRef (base : GoURL) (raw : Chars) : Option Chars :=
  let raw := trimSpaceChars raw
  if skipRef raw then none
  else
    match parseURL raw with
    | none => none
    | some ref =>
      let resolved := resolveReference base ref
      if resolved.host ≠ [] ∧ resolved.host ≠ base.host then none
      else
        let path := (resolved.path.reverse.dropWhile (fun c => c == '/')).reverse
        if path = [] then none
        else
          let path' := match path with
            | '/' :: rest => rest
            | _ => path
          if path' = [] then none else some path'

/-- The keep-first de-duplication done by the `seen` map in
`ExtractPaths`. -/
def dedupKeepFirst (l : List Chars) : List Chars :=
  l.foldl (fun acc p => if acc.contains p then acc else acc ++ [p]) []

/-- `crawl.ExtractPaths`. -/
def extractPaths (body : Chars) (baseURL : Chars) : List Chars :=
  match parseURL baseURL with
  | none => []
  | some base => dedupKeepFirst ((rawRefs body).filterMap (processRef base))

/-! ## Response fingerprint (`Requester.Do`, internal/scanner)

The consumed body (`[]byte`) is modelled as a list of byte values.
`strings.Fields` iterates runes with `unicode.IsSpace`; on the byte
level this is exact for ASCII whitespace (the two Latin-1 space runes
U+0085/U+00A0 are multi-byte in UTF-8 and not modelled). -/

/-- The response fields computed from the consumed body; `redirectURL`
is kept as the raw `Location` header bytes. -/
structure ResponseFingerprint where
  statusCode : Nat
  contentLength : Nat
  wordCount : Nat
  lineCount : Nat
  redirectURL : List Nat
deriving DecidableEq, Repr

/-- ASCII whitespace bytes. -/
def isSpaceByte (b : Nat) : Bool :=
  b == 9 || b == 10 || b == 11 || b == 12 || b == 13 || b == 32

/-- `strings.Fields`: the maximal runs of non-whitespace bytes. -/
def goFields (body : List Nat) : List (List Nat) :=
  (splitOnP isSpaceByte body).filter (fun w => !w.isEmpty)

/-- `strings.Count(bodyStr, "\n")`. -/
def countNewlines (body : List Nat) : Nat :=
  (body.filter (fun b => b == 10)).length

/-- The fingerprint computation of `Requester.Do` after the body has been
consumed: `contentLength` is the byte count, `lineCount` is newline count
plus one but 0 for an empty body, `wordCount` counts `strings.Fields`
tokens, and the `Location` header is captured only for 3xx statuses.
(The MD5 body hash and the wall-clock duration are computed alongside;
neither is part of the checked property.) -/
def doFingerprint (statusCode : Nat) (body : List Nat) (location : List Nat) :
    ResponseFingerprint :=
  let wordCount := (goFields body).length
  let lineCount := countNewlines body + 1
  let lineCount := if body.length = 0 then 0 else lineCount
  { statusCode := statusCode,
    contentLength := body.length,
    wordCount := wordCount,
    lineCount := lineCount,
    redirectURL :=
      if 300 ≤ statusCode ∧ statusCode < 400 then location else [] }

/-- The claim-side characterisation of a status-code group yielding a
baseline: at least 2 probes, and either all body hashes identical
(`EXACT_HASH`) or every probe's content length within `threshold` bytes
of the group's median content length (`FUZZY_LENGTH`). -/
def groupYieldsBaseline (group : List ProbeResult) (threshold : Nat) : Prop :=
  2 ≤ group.length ∧
  ((∀ p ∈ group, ∀ q ∈ group, p.bodyHash = q.bodyHash) ∨
    ∀ p ∈ group,
      Nat.dist p.contentLength (medianNat (group.map (·.contentLength))) ≤ threshold)

/-! ### Structural lemmas about calibration -/

/-- A baseline produced for a status-code group carries that status code. -/
theorem baselineForGroup_statusCode {c thr : Nat} {g : List ProbeResult}
    {b : Baseline} (h : baselineForGroup c g thr = some b) : b.statusCode = c := by
  cases g with
  | nil => simp [baselineForGroup] at h
  | cons g0 rest =>
    simp only [baselineForGroup] at h
    split at h
    · exact absurd h (by simp)
    · split at h
      · simp only [Option.some.injEq] at h
        subst h; rfl
      · split at h
        · simp only [Option.some.injEq] at h
          subst h; rfl
        · exact absurd h (by simp)

/-- A successful `buildSmartFilter` stores the configured threshold and the
baselines produced from the status-code groups. -/
theorem buildSmartFilter_ok {results : List ProbeResult} {thr : Nat}
    {sf : SmartFilter} (h : buildSmartFilter results thr = .ok sf) :
    sf.threshold = thr ∧
    sf.baselines = (statusCodesOf results).filterMap
        (fun c => baselineForGroup c (groupFor results c) thr) := by
  simp only [buildSmartFilter] at h
  split at h
  · exact absurd h (by simp)
  · split at h
    · exact absurd h (by simp)
    · simp only [Except.ok.injEq] at h
      subst h; exact ⟨rfl, rfl⟩

/-- `filterMap` over a duplicate-free key list, with a function that stamps
its key into the produced value, yields pairwise distinct keys. -/
theorem filterMap_key_pairwise {β : Type} (key : β → Nat) (f : Nat → Option β)
    (hf : ∀ c b, f c = some b → key b = c) :
    ∀ codes : List Nat, codes.Nodup →
      (codes.filterMap f).Pairwise (fun a b => key a ≠ key b) := by
  intro codes
  induction codes with
  | nil => intro _; simp
  | cons c cs ih =>
    intro hnd
    rcases List.nodup_cons.mp hnd with ⟨hc, hcs⟩
    cases hfc : f c with
    | none => simpa [List.filterMap_cons, hfc] using ih hcs
    | some b =>
      simp only [List.filterMap_cons, hfc]
      refine List.pairwise_cons.mpr ⟨?_, ih hcs⟩
      intro b' hb'
      rcases List.mem_filterMap.mp hb' with ⟨c', hc', hfc'⟩
      rw [hf c b hfc, hf c' b' hfc']
      exact fun hcc => hc (hcc ▸ hc')

/-- The baselines of a calibrated smart filter have pairwise distinct
status codes: at most one baseline per status code. -/
theorem baselines_key_pairwise {results : List ProbeResult} {thr : Nat}
    {sf : SmartFilter} (hok : buildSmartFilter results thr = .ok sf) :
    sf.baselines.Pairwise (fun a b => a.statusCode ≠ b.statusCode) := by
  rw [(buildSmartFilter_ok hok).2]
  exact filterMap_key_pairwise Baseline.statusCode _
    (fun c b h => baselineForGroup_statusCode h) _
    (List.nodup_dedup _)

/-- In a list with pairwise distinct keys, `find?` on the key of a member
returns exactly that member. -/
theorem find?_eq_of_mem_key_pairwise {β : Type} (key : β → Nat) :
    ∀ (l : List β) (b : β), l.Pairwise (fun a b => key a ≠ key b) → b ∈ l →
      l.find? (fun x => key x == key b) = some b := by
  intro l
  induction l with
  | nil => intro b _ hb; simp at hb
  | cons a as ih =>
    intro b hp hb
    rcases List.pairwise_cons.mp hp with ⟨ha, has⟩
    rcases List.mem_cons.mp hb with rfl | hb'
    · exact List.find?_cons_of_pos _ (by simp)
    · rw [List.find?_cons_of_neg _ (by simp [ha b hb']), ih b has hb']

/-- Model sanity check: the median of an even-sized list is the upper
middle element, as in `sorted[len/2]`. -/
theorem medianNat_even_check : medianNat [120, 100] = 120 := by decide

/-- Model sanity check: the link extractor rejects absolute and
protocol-relative references to a different host, resolves dot segments,
and merges the slash variants of a path. -/
theorem extractPaths_model_checks :
    extractPaths ("<a href=\"http://evil.com/x\">").toList
      ("http://example.com").toList = [] ∧
    extractPaths ("<a href=\"//evil.com/x\">").toList
      ("http://example.com").toList = [] ∧
    extractPaths ("<form action='../up/./x'>").toList
      ("http://example.com/a/b").toList = [("up/x").toList] ∧
    extractPaths ("<a href=\"/admin/\"> <a href='/admin'>").toList
      ("http://example.com").toList = [("admin").toList] := by
  refine ⟨by decide, by decide, by decide, by decide⟩

/-! ## Claim theorems -/

/-- C1 (amended).  For a calibrated smart filter with an `EXACT_HASH`
baseline on status `S`: a result with status `S` and the baseline's body
hash is filtered; a result with status 200 and content length 0 is
always filtered by the unconditional empty-200 rule; and a result with
status `S` whose hash differs from the baseline's passes, *unless* it
falls under the empty-200 rule. -/
theorem smart_exact_hash_consistency
    (results : List ProbeResult) (threshold : Nat) (sf : SmartFilter)
    (hok : buildSmartFilter results threshold = .ok sf)
    (b : Baseline) (hb : b ∈ sf.baselines) (hmode : b.mode = .matchHashExact)
    (r : ScanResult) (hs : r.statusCode = b.statusCode) :
    (r.bodyHash = b.bodyHash → shouldFilter sf r = true) ∧
    (r.statusCode = 200 ∧ r.contentLength = 0 → shouldFilter sf r = true) ∧
    (r.bodyHash ≠ b.bodyHash → ¬(r.statusCode = 200 ∧ r.contentLength = 0) →
      shouldFilter sf r = false) := by
  have hfind : sf.baselines.find? (fun x => x.statusCode == r.statusCode)
      = some b := by
    rw [hs]
    exact find?_eq_of_mem_key_pairwise Baseline.statusCode _ _
      (baselines_key_pairwise hok) hb
  refine ⟨?_, ?_, ?_⟩
  · intro hh
    simp [shouldFilter, hfind, shouldFilterByBaseline, hmode, hh]
  · rintro ⟨h200, hlen⟩
    simp [shouldFilter, h200, hlen]
  · intro hh hne
    have hcond : (r.statusCode == 200 && r.contentLength == 0) = false := by
      rw [Bool.eq_false_iff]
      simpa [Bool.and_eq_true] using hne
    simp [shouldFilter, hcond, hfind, shouldFilterByBaseline, hmode, hh]

/-- Witness for C1: a filter calibrated from two identical 404 probes
(hash 9) filters a 404 result with hash 9 and passes a 404 result with
hash 8. -/
theorem smart_exact_hash_consistency_witness :
    shouldFilter
        { baselines := [⟨404, 30, 9, 4, 2, .matchHashExact⟩], threshold := 50 }
        ⟨404, 30, 9, 4, 2⟩ = true ∧
    shouldFilter
        { baselines := [⟨404, 30, 9, 4, 2, .matchHashExact⟩], threshold := 50 }
        ⟨404, 25, 8, 3, 2⟩ = false := by
  have h1 := smart_exact_hash_consistency
    [⟨404, 30, 9, 4, 2⟩, ⟨404, 30, 9, 4, 2⟩] 50
    { baselines := [⟨404, 30, 9, 4, 2, .matchHashExact⟩], threshold := 50 }
    rfl ⟨404, 30, 9, 4, 2, .matchHashExact⟩ (by decide) rfl
    ⟨404, 30, 9, 4, 2⟩ rfl
  have h2 := smart_exact_hash_consistency
    [⟨404, 30, 9, 4, 2⟩, ⟨404, 30, 9, 4, 2⟩] 50
    { baselines := [⟨404, 30, 9, 4, 2, .matchHashExact⟩], threshold := 50 }
    rfl ⟨404, 30, 9, 4, 2, .matchHashExact⟩ (by decide) rfl
    ⟨404, 25, 8, 3, 2⟩ rfl
  exact ⟨h1.1 rfl, h2.2.2 (by decide) (by decide)⟩

/-- Counterexample to C1 as stated.  Calibration from two identical
200-probes (hash 7) yields an `EXACT_HASH` baseline on status 200 with
hash 7; the result `(status 200, contentLength 0, hash 5)` has a hash
different from the baseline's, so the claim says it passes — but
`ShouldFilter` filters it via the unconditional empty-200 rule that runs
before the baseline comparison. -/
theorem smart_exact_hash_claim_counterexample :
    buildSmartFilter [⟨200, 10, 7, 2, 1⟩, ⟨200, 10, 7, 2, 1⟩] 50
      = .ok { baselines := [⟨200, 10, 7, 2, 1, .matchHashExact⟩],
              threshold := 50 } ∧
    (5 : Nat) ≠ 7 ∧
    shouldFilter
      { baselines := [⟨200, 10, 7, 2, 1, .matchHashExact⟩], threshold := 50 }
      ⟨200, 0, 5, 0, 0⟩ = true :=
  ⟨rfl, by decide, rfl⟩

/-- C10 (amended).  A calibrated smart filter has at most one baseline
per status code; outside the unconditional empty-200 rule, the unique
baseline matching the result's status code determines classification,
and a result whose status matches no baseline passes. -/
theorem smart_unique_baseline
    (results : List ProbeResult) (threshold : Nat) (sf : SmartFilter)
    (hok : buildSmartFilter results threshold = .ok sf) :
    sf.baselines.Pairwise (fun a b => a.statusCode ≠ b.statusCode) ∧
    (∀ r : ScanResult, ∀ b ∈ sf.baselines, b.statusCode = r.statusCode →
        ¬(r.statusCode = 200 ∧ r.contentLength = 0) →
        shouldFilter sf r = shouldFilterByBaseline sf.threshold b r) ∧
    (∀ r : ScanResult, (∀ b ∈ sf.baselines, b.statusCode ≠ r.statusCode) →
        ¬(r.statusCode = 200 ∧ r.contentLength = 0) →
        shouldFilter sf r = false) := by
  refine ⟨baselines_key_pairwise hok, ?_, ?_⟩
  · intro r b hb hbs hne
    have hfind : sf.baselines.find? (fun x => x.statusCode == r.statusCode)
        = some b := by
      rw [← hbs]
      exact find?_eq_of_mem_key_pairwise Baseline.statusCode _ _
        (baselines_key_pairwise hok) hb
    have hcond : (r.statusCode == 200 && r.contentLength == 0) = false := by
      rw [Bool.eq_false_iff]
      simpa [Bool.and_eq_true] using hne
    simp [shouldFilter, hcond, hfind]
  · intro r hnone hne
    have hcond : (r.statusCode == 200 && r.contentLength == 0) = false := by
      rw [Bool.eq_false_iff]
      simpa [Bool.and_eq_true] using hne
    have hfind : sf.baselines.find? (fun x => x.statusCode == r.statusCode)
        = none :=
      List.find?_eq_none.mpr (fun x hx => by simp [hnone x hx])
    simp [shouldFilter, hcond, hfind]

/-- Witness for C10: a filter calibrated from two identical 404 probes
has exactly one baseline, and a 500 result (matching no baseline)
passes. -/
theorem smart_unique_baseline_witness :
    shouldFilter
      { baselines := [⟨404, 30, 9, 4, 2, .matchHashExact⟩], threshold := 50 }
      ⟨500, 10, 1, 1, 1⟩ = false := by
  have h := smart_unique_baseline
    [⟨404, 30, 9, 4, 2⟩, ⟨404, 30, 9, 4, 2⟩] 50
    { baselines := [⟨404, 30, 9, 4, 2, .matchHashExact⟩], threshold := 50 } rfl
  exact h.2.2 ⟨500, 10, 1, 1, 1⟩ (by decide) (by decide)

/-- Counterexample to C10's "results whose status matches no baseline
always pass": calibration from two identical 404 probes yields a filter
whose only baseline is on status 404, yet the result
`(status 200, contentLength 0)` — matching no baseline — is filtered by
the unconditional empty-200 rule. -/
theorem smart_unmatched_status_counterexample :
    buildSmartFilter [⟨404, 30, 9, 4, 2⟩, ⟨404, 30, 9, 4, 2⟩] 50
      = .ok { baselines := [⟨404, 30, 9, 4, 2, .matchHashExact⟩],
              threshold := 50 } ∧
    (404 : Nat) ≠ 200 ∧
    shouldFilter
      { baselines := [⟨404, 30, 9, 4, 2, .matchHashExact⟩], threshold := 50 }
      ⟨200, 0, 1, 0, 0⟩ = true :=
  ⟨rfl, by decide, rfl⟩

/-- C2 (amended).  For a calibrated smart filter with a `FUZZY_LENGTH`
baseline matching the result's status code, and outside the
unconditional empty-200 rule, the result is filtered iff at least 2 of
the 3 tolerance checks hold (equivalently: some pair of them holds). -/
theorem smart_fuzzy_two_of_three
    (results : List ProbeResult) (threshold : Nat) (sf : SmartFilter)
    (hok : buildSmartFilter results threshold = .ok sf)
    (b : Baseline) (hb : b ∈ sf.baselines) (hmode : b.mode = .matchFuzzyLength)
    (r : ScanResult) (hs : r.statusCode = b.statusCode)
    (hne : ¬(r.statusCode = 200 ∧ r.contentLength = 0)) :
    (shouldFilter sf r = true ↔
      ((Nat.dist r.contentLength b.contentLength ≤ threshold ∧
          Nat.dist r.wordCount b.wordCount ≤ max 5 (b.wordCount / 20)) ∨
       (Nat.dist r.contentLength b.contentLength ≤ threshold ∧
          Nat.dist r.lineCount b.lineCount ≤ max 2 (b.lineCount / 10)) ∨
       (Nat.dist r.wordCount b.wordCount ≤ max 5 (b.wordCount / 20) ∧
          Nat.dist r.lineCount b.lineCount ≤ max 2 (b.lineCount / 10)))) := by
  have hth := (buildSmartFilter_ok hok).1
  have hfind : sf.baselines.find? (fun x => x.statusCode == r.statusCode)
      = some b := by
    rw [hs]
    exact find?_eq_of_mem_key_pairwise Baseline.statusCode _ _
      (baselines_key_pairwise hok) hb
  have hcond : (r.statusCode == 200 && r.contentLength == 0) = false := by
    rw [Bool.eq_false_iff]
    simpa [Bool.and_eq_true] using hne
  rw [← hth]
  by_cases h1 : Nat.dist r.contentLength b.contentLength ≤ sf.threshold <;>
    by_cases h2 : Nat.dist r.wordCount b.wordCount ≤ max 5 (b.wordCount / 20) <;>
    by_cases h3 : Nat.dist r.lineCount b.lineCount ≤ max 2 (b.lineCount / 10) <;>
    simp [shouldFilter, hcond, hfind, shouldFilterByBaseline, hmode, h1, h2, h3]

/-- Witness for C2: a filter calibrated from two differing 200-probes
(fuzzy baseline `length 120, words 210, lines 55`, threshold 50) filters
the result `(200, 110, words 208, lines 54)`, which meets all three
tolerances. -/
theorem smart_fuzzy_two_of_three_witness :
    shouldFilter
      { baselines := [⟨200, 120, 0, 210, 55, .matchFuzzyLength⟩],
        threshold := 50 }
      ⟨200, 110, 3, 208, 54⟩ = true := by
  have h := smart_fuzzy_two_of_three
    [⟨200, 100, 1, 200, 50⟩, ⟨200, 120, 2, 210, 55⟩] 50
    { baselines := [⟨200, 120, 0, 210, 55, .matchFuzzyLength⟩],
      threshold := 50 }
    rfl ⟨200, 120, 0, 210, 55, .matchFuzzyLength⟩ (by decide) rfl
    ⟨200, 110, 3, 208, 54⟩ rfl (by decide)
  exact h.mpr (Or.inl ⟨by decide, by decide⟩)

/-- Counterexample to C2 as stated.  Calibration from two 200-probes with
different hashes but converging lengths yields a `FUZZY_LENGTH` baseline
`(length 120, words 210, lines 55)`.  The result
`(200, length 0, words 0, lines 0)` misses all three tolerances, so the
claim says it passes — but `ShouldFilter` filters it via the
unconditional empty-200 rule. -/
theorem smart_fuzzy_claim_counterexample :
    buildSmartFilter [⟨200, 100, 1, 200, 50⟩, ⟨200, 120, 2, 210, 55⟩] 50
      = .ok { baselines := [⟨200, 120, 0, 210, 55, .matchFuzzyLength⟩],
              threshold := 50 } ∧
    ¬ (Nat.dist 0 120 ≤ 50) ∧
    ¬ (Nat.dist 0 210 ≤ max 5 (210 / 20)) ∧
    ¬ (Nat.dist 0 55 ≤ max 2 (55 / 10)) ∧
    shouldFilter
      { baselines := [⟨200, 120, 0, 210, 55, .matchFuzzyLength⟩],
        threshold := 50 }
      ⟨200, 0, 9, 0, 0⟩ = true :=
  ⟨rfl, by decide, by decide, by decide, rfl⟩

/-- A status-code group produces a baseline exactly when the claim's
characterisation holds: at least 2 members and either all hashes
identical or all content lengths within threshold of the median. -/
theorem baselineForGroup_isSome_iff (c thr : Nat) (g : List ProbeResult) :
    (∃ b, baselineForGroup c g thr = some b) ↔ groupYieldsBaseline g thr := by
  cases g with
  | nil => simp [baselineForGroup, groupYieldsBaseline]
  | cons g0 rest =>
    simp only [baselineForGroup, groupYieldsBaseline]
    split
    · rename_i hlt
      constructor
      · rintro ⟨b, hb⟩; simp at hb
      · rintro ⟨hle, _⟩; omega
    · rename_i hge
      split
      · rename_i hall
        constructor
        · intro _
          refine ⟨by omega, Or.inl ?_⟩
          intro p hp q hq
          have hp' := List.all_eq_true.mp hall p hp
          have hq' := List.all_eq_true.mp hall q hq
          simp only [beq_iff_eq] at hp' hq'
          rw [hp', hq']
        · intro _; exact ⟨_, rfl⟩
      · rename_i hall
        split
        · rename_i hconv
          constructor
          · intro _
            refine ⟨by omega, Or.inr ?_⟩
            intro p hp
            have := List.all_eq_true.mp hconv p.contentLength
              (List.mem_map_of_mem _ hp)
            simpa using this
          · intro _; exact ⟨_, rfl⟩
        · rename_i hconv
          constructor
          · rintro ⟨b, hb⟩; simp at hb
          · rintro ⟨_, hsame | hconv'⟩
            · exfalso
              apply hall
              apply List.all_eq_true.mpr
              intro p hp
              simpa using hsame p hp g0 (by simp)
            · exfalso
              apply hconv
              apply List.all_eq_true.mpr
              intro l hl
              rcases List.mem_map.mp hl with ⟨p, hp, rfl⟩
              simpa using hconv' p hp

/-- C3 (confirmed).  `buildSmartFilter` returns an error exactly when
fewer than 2 probes succeeded, or when no status-code group yields a
baseline in the sense of `groupYieldsBaseline` (≥ 2 probes and either
identical hashes, for `EXACT_HASH`, or all content lengths within
`threshold` of the median, for `FUZZY_LENGTH`; all other groups are
discarded).  The quantification ranges over all status codes: codes with
no matching probe form an empty group, which never yields a baseline. -/
theorem calibration_error_iff (results : List ProbeResult) (threshold : Nat) :
    (∃ e, buildSmartFilter results threshold = .error e) ↔
      (results.length < 2 ∨
        ∀ code : Nat, ¬ groupYieldsBaseline (groupFor results code) threshold) := by
  have empty_iff :
      (((statusCodesOf results).filterMap
          (fun c => baselineForGroup c (groupFor results c) threshold)) = []) ↔
        ∀ code : Nat, ¬ groupYieldsBaseline (groupFor results code) threshold := by
    rw [List.filterMap_eq_nil_iff]
    constructor
    · intro h code hy
      by_cases hc : code ∈ statusCodesOf results
      · rcases (baselineForGroup_isSome_iff code threshold _).mpr hy with ⟨b, hb⟩
        rw [h code hc] at hb
        cases hb
      · have hempty : groupFor results code = [] := by
          rw [groupFor, List.filter_eq_nil_iff]
          intro r hr hbeq
          apply hc
          rw [statusCodesOf, List.mem_dedup]
          exact List.mem_map.mpr ⟨r, hr, by simpa using hbeq⟩
        rw [hempty] at hy
        rcases hy with ⟨hlen, _⟩
        simp at hlen
    · intro h c hc
      cases hfc : baselineForGroup c (groupFor results c) threshold with
      | none => rfl
      | some b =>
        exact absurd ((baselineForGroup_isSome_iff c threshold _).mp ⟨b, hfc⟩)
          (h c)
  constructor
  · rintro ⟨e, he⟩
    simp only [buildSmartFilter] at he
    split at he
    · left; assumption
    · split at he
      · rename_i hnil
        right
        exact empty_iff.mp (List.isEmpty_iff.mp hnil)
      · cases he
  · intro h
    simp only [buildSmartFilter]
    split
    · exact ⟨_, rfl⟩
    · rename_i hge
      rcases h with hlt | hall
      · omega
      · have : ((statusCodesOf results).filterMap
            (fun c => baselineForGroup c (groupFor results c) threshold)) = [] :=
          empty_iff.mpr hall
        simp [this]

/-- One throttler operation never changes `baseDelay`, `maxDelay` or
`enabled`, and (when `baseDelay ≤ maxDelay`) never drops the current
delay below `baseDelay`. -/
theorem throttler_step_invariant (t : Throttler) (op : ThrottleOp)
    (hbm : t.baseDelay ≤ t.maxDelay) (hbc : t.baseDelay ≤ t.currentDelay) :
    (applyOps t [op]).baseDelay = t.baseDelay ∧
    (applyOps t [op]).maxDelay = t.maxDelay ∧
    (applyOps t [op]).enabled = t.enabled ∧
    t.baseDelay ≤ (applyOps t [op]).currentDelay := by
  cases op with
  | status code =>
    simp only [applyOps, List.foldl, Throttler.recordStatus]
    split
    · exact ⟨rfl, rfl, rfl, hbc⟩
    · split
      · refine ⟨rfl, rfl, rfl, ?_⟩
        simp only [backoffDelay]
        omega
      · split
        · refine ⟨rfl, rfl, rfl, ?_⟩
          simp only
          omega
        · exact ⟨rfl, rfl, rfl, hbc⟩
  | error =>
    simp only [applyOps, List.foldl, Throttler.recordError]
    split
    · exact ⟨rfl, rfl, rfl, hbc⟩
    · split
      · refine ⟨rfl, rfl, rfl, ?_⟩
        simp only [backoffDelay]
        omega
      · exact ⟨rfl, rfl, rfl, hbc⟩

/-- Invariant of any operation sequence: the configuration fields are
stable and the current delay stays at or above `baseDelay` whenever
`baseDelay ≤ maxDelay`. -/
theorem applyOps_invariant (ops : List ThrottleOp) :
    ∀ t : Throttler, t.baseDelay ≤ t.maxDelay → t.baseDelay ≤ t.currentDelay →
      (applyOps t ops).baseDelay = t.baseDelay ∧
      (applyOps t ops).maxDelay = t.maxDelay ∧
      (applyOps t ops).enabled = t.enabled ∧
      (applyOps t ops).baseDelay ≤ (applyOps t ops).currentDelay := by
  induction ops with
  | nil => intro t _ hbc; exact ⟨rfl, rfl, rfl, hbc⟩
  | cons op rest ih =>
    intro t hbm hbc
    have hstep := throttler_step_invariant t op hbm hbc
    have hcons : applyOps t (op :: rest) = applyOps (applyOps t [op]) rest := by
      simp [applyOps]
    rw [hcons]
    have ih' := ih (applyOps t [op])
      (by rw [hstep.1, hstep.2.1]; exact hbm)
      (by rw [hstep.1]; exact hstep.2.2.2)
    refine ⟨?_, ?_, ?_, ih'.2.2.2⟩
    · rw [ih'.1, hstep.1]
    · rw [ih'.2.1, hstep.2.1]
    · rw [ih'.2.2.1, hstep.2.2.1]

/-- C4 (amended).  For an enabled throttler: (1) provided
`2·baseDelay ≤ maxDelay` (30 s), one 429 from the initial state sets the
delay to exactly `max(500 ms, 2·baseDelay)`; (2) provided
`baseDelay ≤ 30 s`, the delay never drops below `baseDelay` under any
operation sequence; (3) a healthy (non-429/503) status while throttle
signals are outstanding halves the delay once, clamped below at
`baseDelay`, and clears the signal counter; (4) a healthy status with no
outstanding signals leaves the throttler unchanged — so the delay does
not, in general, converge back to `baseDelay` under sustained healthy
statuses. -/
theorem throttler_backoff_behaviour :
    (∀ base : Nat, 2 * base ≤ 30000 →
      ((newThrottler base true).recordStatus 429).delay = max 500 (2 * base)) ∧
    (∀ (base : Nat) (enabled : Bool) (ops : List ThrottleOp), base ≤ 30000 →
      base ≤ (applyOps (newThrottler base enabled) ops).delay) ∧
    (∀ (t : Throttler) (code : Nat), t.enabled = true → code ≠ 429 →
      code ≠ 503 → 0 < t.consecutive →
      (t.recordStatus code).currentDelay
          = max t.baseDelay (t.currentDelay / 2) ∧
        (t.recordStatus code).consecutive = 0) ∧
    (∀ (t : Throttler) (code : Nat), t.enabled = true → code ≠ 429 →
      code ≠ 503 → t.consecutive = 0 → t.recordStatus code = t) := by
  refine ⟨?_, ?_, ?_, ?_⟩
  · intro base hle
    simp only [newThrottler, Throttler.recordStatus, Throttler.delay,
      backoffDelay]
    norm_num
    omega
  · intro base enabled ops hle
    have h := applyOps_invariant ops (newThrottler base enabled)
      (by simp only [newThrottler]; omega) (by simp [newThrottler])
    rw [Throttler.delay]
    split
    · rw [h.1]; simp [newThrottler]
    · calc base = (newThrottler base enabled).baseDelay := rfl
        _ = (applyOps (newThrottler base enabled) ops).baseDelay := h.1.symm
        _ ≤ _ := h.2.2.2
  · intro t code hen h429 h503 hcons
    simp only [Throttler.recordStatus, hen]
    norm_num
    rw [if_neg (by omega), if_pos hcons]
    exact ⟨rfl, rfl⟩
  · intro t code hen h429 h503 hcons
    simp only [Throttler.recordStatus, hen]
    norm_num
    rw [if_neg (by omega), if_neg (by omega)]

/-- Witness for C4: with `baseDelay = 100 ms` enabled, one 429 yields a
500 ms delay, and the delay stays at or above 100 ms across a mixed
operation sequence. -/
theorem throttler_backoff_behaviour_witness :
    ((newThrottler 100 true).recordStatus 429).delay = 500 ∧
    100 ≤ (applyOps (newThrottler 100 true)
        [.status 429, .error, .status 200]).delay := by
  constructor
  · have h := throttler_backoff_behaviour.1 100 (by decide)
    rw [h]; decide
  · exact throttler_backoff_behaviour.2.1 100 true
      [.status 429, .error, .status 200] (by decide)

/-- Counterexample to C4's convergence clause.  With `baseDelay = 100 ms`
enabled, the sequence 429-then-healthy leaves the delay at 250 ms, and a
further healthy status is a fixed point of the state (the recovery
halving fires only while `consecutive > 0`) — so under sustained healthy
statuses the delay stays at 250 ms forever and never converges back to
the 100 ms base.  (The claim's first clause also fails for large bases:
with `baseDelay = 20 s`, one 429 caps at `maxDelay = 30 s`, below
`2·baseDelay = 40 s`.) -/
theorem throttler_convergence_counterexample :
    (applyOps (newThrottler 100 true) [.status 429, .status 200]).delay
        = 250 ∧
    (applyOps (newThrottler 100 true) [.status 429, .status 200]).recordStatus
        200
      = applyOps (newThrottler 100 true) [.status 429, .status 200] ∧
    (250 : Nat) ≠ 100 ∧
    ((newThrottler 20000 true).recordStatus 429).delay = 30000 ∧
    (30000 : Nat) < max 500 (2 * 20000) :=
  ⟨rfl, rfl, by decide, rfl, by decide⟩

/-- Incrementing one key of a count map: reading back any key sees the
old count, plus one exactly at the bumped key. -/
theorem getCount_bumpCount {κ : Type} [DecidableEq κ]
    (m : List (κ × Nat)) (k0 k : κ) :
    getCount (bumpCount m k0) k = getCount m k + (if k = k0 then 1 else 0) := by
  induction m with
  | nil =>
    by_cases h : k0 = k
    · subst h; simp [bumpCount, getCount]
    · have h' : ¬ k = k0 := fun hk => h hk.symm
      simp [bumpCount, getCount, h, h']
  | cons hd tl ih =>
    obtain ⟨k', n⟩ := hd
    simp only [bumpCount]
    by_cases h1 : k' = k0
    · rw [if_pos h1]
      simp only [getCount]
      by_cases h2 : k' = k
      · rw [if_pos h2, if_pos h2, if_pos (h2.symm.trans h1)]
      · rw [if_neg h2, if_neg h2,
          if_neg (fun hk : k = k0 => h2 (h1.trans hk.symm))]
        omega
    · rw [if_neg h1]
      simp only [getCount]
      by_cases h2 : k' = k
      · rw [if_pos h2, if_pos h2, if_neg (fun hk : k = k0 => h1 (h2.trans hk))]
        omega
      · rw [if_neg h2, if_neg h2]
        exact ih

/-- Generalised characterisation of the duplicate filter: starting from a
state whose counters record the key multiplicities of `prior`, the i-th
verdict compares the multiplicities of the i-th result's keys within
`prior ++ rs.take (i+1)` against the two thresholds. -/
theorem dupProcess_getD (rs : List ScanResult) :
    ∀ (d : DuplicateFilter) (prior : List ScanResult),
      (∀ k, getCount d.seen k
          = (prior.filter (fun x => exactKeyOf x == k)).length) →
      (∀ k, getCount d.fuzzySeen k
          = (prior.filter (fun x => fuzzyKeyOf x == k)).length) →
      ∀ i, i < rs.length →
        ((dupProcess d rs).getD i false = true ↔
          (d.threshold < ((prior ++ rs.take (i + 1)).filter
              (fun x => exactKeyOf x
                  == exactKeyOf (rs.getD i ⟨0, 0, 0, 0, 0⟩))).length ∨
           d.fuzzyThreshold < ((prior ++ rs.take (i + 1)).filter
              (fun x => fuzzyKeyOf x
                  == fuzzyKeyOf (rs.getD i ⟨0, 0, 0, 0, 0⟩))).length)) := by
  induction rs with
  | nil => intro d prior hx hf i hi; simp at hi
  | cons r rest ih =>
    intro d prior hx hf i hi
    cases i with
    | zero =>
      simp only [dupProcess, List.getD_cons_zero, List.take_succ_cons,
        List.take_zero, dupShouldFilter]
      rw [getCount_bumpCount, if_pos rfl, getCount_bumpCount, if_pos rfl,
        hx, hf]
      simp [List.filter_append, Bool.or_eq_true, decide_eq_true_iff]
    | succ j =>
      have hx' : ∀ k, getCount ((dupShouldFilter d r).2).seen k
          = ((prior ++ [r]).filter (fun x => exactKeyOf x == k)).length := by
        intro k
        simp only [dupShouldFilter]
        rw [getCount_bumpCount, hx]
        by_cases hk : k = exactKeyOf r
        · subst hk; simp [List.filter_append]
        · have hne : (exactKeyOf r == k) = false := by
            simpa using fun hk' => hk hk'.symm
          simp [List.filter_append, hk, hne]
      have hf' : ∀ k, getCount ((dupShouldFilter d r).2).fuzzySeen k
          = ((prior ++ [r]).filter (fun x => fuzzyKeyOf x == k)).length := by
        intro k
        simp only [dupShouldFilter]
        rw [getCount_bumpCount, hf]
        by_cases hk : k = fuzzyKeyOf r
        · subst hk; simp [List.filter_append]
        · have hne : (fuzzyKeyOf r == k) = false := by
            simpa using fun hk' => hk hk'.symm
          simp [List.filter_append, hk, hne]
      have hih := ih (dupShouldFilter d r).2 (prior ++ [r]) hx' hf' j
        (Nat.lt_of_succ_lt_succ hi)
      simp only [dupProcess, List.getD_cons_succ, List.take_succ_cons]
      have hth : ((dupShouldFilter d r).2).threshold = d.threshold := by
        simp [dupShouldFilter]
      have hfth : ((dupShouldFilter d r).2).fuzzyThreshold
          = d.fuzzyThreshold := by
        simp [dupShouldFilter]
      rw [hth, hfth] at hih
      simpa [List.append_assoc] using hih

/-- C5 (amended).  For a duplicate filter with threshold `T` run over a
stream of results, the i-th result is filtered **iff** its exact key
`(statusCode, bodyHash)` occurs more than `T` times within the stream up
to and including it, **or** its fuzzy key
`(statusCode, lineCount, wordCount/5)` occurs more than `max(3T, 5)`
times there.  Consequently the `(T+1)`-th and later exact duplicates are
always filtered, fuzzy-sharers are filtered once more than `max(3T, 5)`
have been seen, and — provided `T ≥ 1` — a result whose exact and fuzzy
keys are both unique in the stream so far always passes.  (The two
counters interact: the claim's per-key reading fails, see the
counterexample.) -/
theorem duplicate_filter_thresholds (T : Nat) (rs : List ScanResult)
    (i : Nat) (hi : i < rs.length) :
    ((dupProcess (newDuplicateFilter T) rs).getD i false = true ↔
      (T < ((rs.take (i + 1)).filter
          (fun x => exactKeyOf x
              == exactKeyOf (rs.getD i ⟨0, 0, 0, 0, 0⟩))).length ∨
       max (T * 3) 5 < ((rs.take (i + 1)).filter
          (fun x => fuzzyKeyOf x
              == fuzzyKeyOf (rs.getD i ⟨0, 0, 0, 0, 0⟩))).length)) ∧
    (1 ≤ T →
      ((rs.take (i + 1)).filter
          (fun x => exactKeyOf x
              == exactKeyOf (rs.getD i ⟨0, 0, 0, 0, 0⟩))).length = 1 →
      ((rs.take (i + 1)).filter
          (fun x => fuzzyKeyOf x
              == fuzzyKeyOf (rs.getD i ⟨0, 0, 0, 0, 0⟩))).length = 1 →
      (dupProcess (newDuplicateFilter T) rs).getD i false = false) := by
  have h := dupProcess_getD rs (newDuplicateFilter T) []
    (fun k => by simp [newDuplicateFilter, getCount])
    (fun k => by simp [newDuplicateFilter, getCount]) i hi
  simp only [newDuplicateFilter, List.nil_append] at h
  refine ⟨h, ?_⟩
  intro hT hx hf
  rw [Bool.eq_false_iff]
  intro htrue
  rcases h.mp htrue with hlt | hlt
  · rw [hx] at hlt; omega
  · rw [hf] at hlt
    have h5 : 5 ≤ max (T * 3) 5 := le_max_right _ _
    omega

/-- Witness for C5: with `T = 1`, a single result — unique in both
keys — passes. -/
theorem duplicate_filter_thresholds_witness :
    (dupProcess (newDuplicateFilter 1)
        [⟨200, 5, 1, 2, 1⟩]).getD 0 false = false := by
  have h := duplicate_filter_thresholds 1 [⟨200, 5, 1, 2, 1⟩] 0 (by decide)
  exact h.2 (by decide) (by decide) (by decide)

/-- Counterexample to C5's per-key reading.  With `T = 2`
(`fuzzyThreshold = max(6,5) = 6`) and seven results that all share the
fuzzy key `(200, 1, 0)` but have seven distinct body hashes, the seventh
result is the *first* occurrence of its exact key `(200, 7)` — by the
claim ("the first T results sharing the same (statusCode, bodyHash) key
pass") it must pass — yet it is filtered, because the shared fuzzy
counter has already exceeded 6. -/
theorem duplicate_first_occurrence_counterexample :
    dupProcess (newDuplicateFilter 2)
      [⟨200, 50, 1, 2, 1⟩, ⟨200, 50, 2, 2, 1⟩, ⟨200, 50, 3, 2, 1⟩,
       ⟨200, 50, 4, 2, 1⟩, ⟨200, 50, 5, 2, 1⟩, ⟨200, 50, 6, 2, 1⟩,
       ⟨200, 50, 7, 2, 1⟩]
      = [false, false, false, false, false, false, true] ∧
    (([⟨200, 50, 1, 2, 1⟩, ⟨200, 50, 2, 2, 1⟩, ⟨200, 50, 3, 2, 1⟩,
       ⟨200, 50, 4, 2, 1⟩, ⟨200, 50, 5, 2, 1⟩, ⟨200, 50, 6, 2, 1⟩,
       ⟨200, 50, 7, 2, 1⟩] : List ScanResult).filter
        (fun x => exactKeyOf x == (200, 7))).length = 1 :=
  ⟨rfl, by decide⟩

/-- C7 (amended).  The per-directory chain built during recursion:
(1) every non-smart parent filter is carried over — including any
duplicate filter; (2) a duplicate filter is in the new chain exactly
when it is in the parent chain, so no fresh duplicate filter is
installed; (3) the only smart filter in the new chain is the freshly
re-calibrated one, present exactly when smart filtering is enabled and
re-calibration succeeded; (4) nothing else is added. -/
theorem dirchain_membership (parent : List GoFilter) (smartEnabled : Bool)
    (calibrated : Option SmartFilter) :
    (∀ f ∈ parent, f.isSmart = false →
        f ∈ buildDirChain parent smartEnabled calibrated) ∧
    (∀ d : DuplicateFilter,
        GoFilter.dup d ∈ buildDirChain parent smartEnabled calibrated ↔
          GoFilter.dup d ∈ parent) ∧
    (∀ sf : SmartFilter,
        GoFilter.smart sf ∈ buildDirChain parent smartEnabled calibrated ↔
          (smartEnabled = true ∧ calibrated = some sf)) ∧
    (∀ f ∈ buildDirChain parent smartEnabled calibrated,
        f ∈ parent ∨
          (smartEnabled = true ∧
            ∃ sf, calibrated = some sf ∧ f = GoFilter.smart sf)) := by
  unfold buildDirChain
  refine ⟨?_, ?_, ?_, ?_⟩
  · intro f hf hs
    exact List.mem_append_left _ (List.mem_filter.mpr ⟨hf, by simp [hs]⟩)
  · intro d
    rw [List.mem_append]
    constructor
    · rintro (h | h)
      · exact (List.mem_filter.mp h).1
      · cases smartEnabled <;> cases calibrated <;> simp_all
    · intro h
      exact Or.inl (List.mem_filter.mpr ⟨h, by simp [GoFilter.isSmart]⟩)
  · intro sf
    rw [List.mem_append]
    constructor
    · rintro (h | h)
      · exact absurd (List.mem_filter.mp h).2 (by simp [GoFilter.isSmart])
      · cases smartEnabled <;> cases calibrated <;> simp_all
    · rintro ⟨hen, hcal⟩
      subst hen
      rw [hcal]
      exact Or.inr (by simp)
  · intro f hf
    rcases List.mem_append.mp hf with h | h
    · exact Or.inl (List.mem_filter.mp h).1
    · right
      cases smartEnabled <;> cases calibrated <;> simp_all

/-- Witness for C7: a parent chain holding a status filter and a (used)
duplicate filter keeps that duplicate filter in the per-directory chain,
and the freshly calibrated smart filter is present. -/
theorem dirchain_membership_witness :
    GoFilter.dup ⟨[((200, 7), 3)], [((200, 1, 1), 3)], 2, 6⟩ ∈
      buildDirChain
        [GoFilter.statusF [200] [],
         GoFilter.dup ⟨[((200, 7), 3)], [((200, 1, 1), 3)], 2, 6⟩]
        true (some ⟨[⟨200, 10, 7, 2, 1, .matchHashExact⟩], 50⟩) ∧
    GoFilter.smart ⟨[⟨200, 10, 7, 2, 1, .matchHashExact⟩], 50⟩ ∈
      buildDirChain
        [GoFilter.statusF [200] [],
         GoFilter.dup ⟨[((200, 7), 3)], [((200, 1, 1), 3)], 2, 6⟩]
        true (some ⟨[⟨200, 10, 7, 2, 1, .matchHashExact⟩], 50⟩) := by
  have h := dirchain_membership
    [GoFilter.statusF [200] [],
     GoFilter.dup ⟨[((200, 7), 3)], [((200, 1, 1), 3)], 2, 6⟩]
    true (some ⟨[⟨200, 10, 7, 2, 1, .matchHashExact⟩], 50⟩)
  exact ⟨(h.2.1 _).mpr (by simp),
    (h.2.2.1 ⟨[⟨200, 10, 7, 2, 1, .matchHashExact⟩], 50⟩).mpr ⟨rfl, rfl⟩⟩

/-- Counterexample to C7 as stated.  The claim requires the per-directory
chain to drop the parent's Duplicate filter and install a newly created
one.  Building the chain from a parent that holds a used duplicate
filter (non-empty `seen` map) yields a chain that still contains exactly
that used filter — which differs from any `NewDuplicateFilter` state —
and no other duplicate filter: runner.go's type switch excludes only
`*filter.SmartFilter`, and no new duplicate filter is ever added. -/
theorem dirchain_claim_counterexample :
    buildDirChain [GoFilter.dup ⟨[((200, 7), 3)], [((200, 1, 1), 3)], 2, 6⟩]
        true (some ⟨[⟨200, 10, 7, 2, 1, .matchHashExact⟩], 50⟩)
      = [GoFilter.dup ⟨[((200, 7), 3)], [((200, 1, 1), 3)], 2, 6⟩,
         GoFilter.smart ⟨[⟨200, 10, 7, 2, 1, .matchHashExact⟩], 50⟩] ∧
    (⟨[((200, 7), 3)], [((200, 1, 1), 3)], 2, 6⟩ : DuplicateFilter)
      ≠ newDuplicateFilter 2 :=
  ⟨rfl, by decide⟩

/-- `MarkCompleted` preserves the resume-state invariant: the completed
list stays duplicate-free and mirrors the `done` set. -/
theorem markCompleted_preserves (s : ResumeState) (p : String)
    (hnd : s.completedPaths.Nodup)
    (hiff : ∀ q, q ∈ s.done ↔ q ∈ s.completedPaths) :
    (markCompleted s p).completedPaths.Nodup ∧
      ∀ q, q ∈ (markCompleted s p).done ↔
        q ∈ (markCompleted s p).completedPaths := by
  unfold markCompleted
  split
  · exact ⟨hnd, hiff⟩
  · rename_i hnot
    have hp : p ∉ s.completedPaths := by
      rw [← hiff]
      intro hmem
      exact hnot (by simpa using hmem)
    constructor
    · simp only
      rw [List.nodup_append]
      exact ⟨hnd, List.nodup_singleton p,
        by simpa [List.disjoint_singleton] using hp⟩
    · intro q
      simp only [List.mem_cons, List.mem_append, List.mem_singleton]
      rw [hiff q]
      tauto

/-- Any `MarkCompleted` sequence keeps `completedPaths` duplicate-free,
given the invariant initially holds. -/
theorem foldl_markCompleted_nodup (ops : List String) :
    ∀ s : ResumeState, s.completedPaths.Nodup →
      (∀ q, q ∈ s.done ↔ q ∈ s.completedPaths) →
      (ops.foldl markCompleted s).completedPaths.Nodup := by
  induction ops with
  | nil => intro s h _; exact h
  | cons p rest ih =>
    intro s hnd hiff
    have h := markCompleted_preserves s p hnd hiff
    exact ih _ h.1 h.2

/-- C9 (amended).  A freshly created resume state keeps each path at most
once in `completedPaths` under any sequence of `MarkCompleted` calls,
and so does a state loaded from a resume file whose `completed_paths`
list is itself duplicate-free; `Load`, however, copies the file's list
verbatim, so a file with repeated entries violates the invariant (see
the counterexample). -/
theorem resume_completed_nodup :
    (∀ (url : String) (total : Nat) (ops : List String),
      (ops.foldl markCompleted (resumeNew url total)).completedPaths.Nodup) ∧
    (∀ (url : String) (total : Nat) (file ops : List String),
      file.Nodup →
      (ops.foldl markCompleted
          (resumeLoad url total file)).completedPaths.Nodup) ∧
    (∀ (url : String) (total : Nat) (file : List String),
      (resumeLoad url total file).completedPaths = file) := by
  refine ⟨?_, ?_, ?_⟩
  · intro url total ops
    exact foldl_markCompleted_nodup ops _ (by simp [resumeNew])
      (by simp [resumeNew])
  · intro url total file ops hnd
    exact foldl_markCompleted_nodup ops _ hnd (by simp [resumeLoad])
  · intro url total file
    rfl

/-- Witness for C9: marking "a", "b", "a" on a fresh state yields a
duplicate-free completed list, as does marking over a state loaded from
a duplicate-free file. -/
theorem resume_completed_nodup_witness :
    ((["a", "b", "a"].foldl markCompleted
        (resumeNew "http://t" 3)).completedPaths.Nodup) ∧
    ((["b"].foldl markCompleted
        (resumeLoad "http://t" 3 ["a"])).completedPaths.Nodup) := by
  exact ⟨resume_completed_nodup.1 "http://t" 3 ["a", "b", "a"],
    resume_completed_nodup.2.1 "http://t" 3 ["a"] ["b"] (by decide)⟩

/-- Counterexample to C9 as stated.  `Load` keeps the decoded
`completed_paths` array verbatim and deduplicates only the `done`
membership set, so a resume file listing "admin" twice produces a state
in which "admin" appears twice in `completedPaths`. -/
theorem resume_load_duplicate_counterexample :
    (resumeLoad "http://target" 2 ["admin", "admin"]).completedPaths
      = ["admin", "admin"] ∧
    ¬ (["admin", "admin"] : List String).Nodup :=
  ⟨rfl, by decide⟩

/-- The structural splitter used by the fingerprint model agrees with the
library's `List.splitOnP`. -/
theorem splitOnP_eq_lib {α : Type} (p : α → Bool) :
    ∀ l : List α, splitOnP p l = List.splitOnP p l := by
  intro l
  induction l with
  | nil => simp [splitOnP]
  | cons a l ih =>
    rw [List.splitOnP_cons]
    simp only [splitOnP]
    split
    · rw [ih]
    · rw [ih]
      cases h : List.splitOnP p l with
      | nil => exact absurd h (List.splitOnP_ne_nil p l)
      | cons hd tl => simp [List.modifyHead]

/-- C8 (confirmed).  For every consumed body, the requester's fingerprint
has `contentLength` equal to the byte count of the body, `lineCount`
equal to 0 for an empty body and to the newline count plus one
otherwise, `wordCount` equal to the number of (maximal, non-empty)
whitespace-separated tokens, and `redirectURL` equal to the `Location`
header exactly when the status code is in 3xx, and empty otherwise. -/
theorem response_fingerprint_spec (statusCode : Nat)
    (body location : List Nat) :
    (doFingerprint statusCode body location).contentLength = body.length ∧
    (doFingerprint statusCode body location).lineCount
      = (if body = [] then 0 else body.count 10 + 1) ∧
    (doFingerprint statusCode body location).wordCount
      = ((List.splitOnP isSpaceByte body).filter (fun w => w ≠ [])).length ∧
    (300 ≤ statusCode ∧ statusCode < 400 →
      (doFingerprint statusCode body location).redirectURL = location) ∧
    (¬(300 ≤ statusCode ∧ statusCode < 400) →
      (doFingerprint statusCode body location).redirectURL = []) := by
  refine ⟨rfl, ?_, ?_, ?_, ?_⟩
  · simp only [doFingerprint, countNewlines]
    rw [List.count_eq_countP, List.countP_eq_length_filter]
    rcases List.eq_nil_or_concat body with rfl | ⟨l, a, rfl⟩
    · simp
    · rw [if_neg (by simp), if_neg (by simp)]
  · simp only [doFingerprint, goFields]
    rw [splitOnP_eq_lib]
    congr 1
    apply List.filter_congr
    intro w _
    cases w <;> simp
  · intro h
    simp [doFingerprint, h]
  · intro h
    simp [doFingerprint, h]

/-- Witness for C8: the body `"ab\ncd ef"` (bytes) with status 301 and
`Location: /x` yields content length 8, 2 lines, 3 words, and captures
the redirect; with status 200 the redirect is dropped. -/
theorem response_fingerprint_spec_witness :
    (doFingerprint 301 [97, 98, 10, 99, 100, 32, 101, 102]
        [47, 120]).redirectURL = [47, 120] ∧
    (doFingerprint 200 [97, 98, 10, 99, 100, 32, 101, 102]
        [47, 120]).redirectURL = [] ∧
    (doFingerprint 301 [97, 98, 10, 99, 100, 32, 101, 102]
        [47, 120]).lineCount = 2 ∧
    (doFingerprint 301 [97, 98, 10, 99, 100, 32, 101, 102]
        [47, 120]).wordCount = 3 := by
  refine ⟨?_, ?_, by decide, by decide⟩
  · exact (response_fingerprint_spec 301 [97, 98, 10, 99, 100, 32, 101, 102]
      [47, 120]).2.2.2.1 (by decide)
  · exact (response_fingerprint_spec 200 [97, 98, 10, 99, 100, 32, 101, 102]
      [47, 120]).2.2.2.2 (by decide)

/-- Keep-first de-duplication only ever returns elements of its input
(generalised over the fold accumulator). -/
theorem mem_foldl_dedup (l : List Chars) :
    ∀ (acc : List Chars) (x : Chars),
      x ∈ l.foldl (fun acc p => if acc.contains p then acc else acc ++ [p])
          acc →
      x ∈ acc ∨ x ∈ l := by
  induction l with
  | nil => intro acc x h; exact Or.inl h
  | cons a l ih =>
    intro acc x h
    rw [List.foldl_cons] at h
    rcases ih _ x h with h' | h'
    · split at h'
      · exact Or.inl h'
      · rcases List.mem_append.mp h' with h'' | h''
        · exact Or.inl h''
        · simp only [List.mem_singleton] at h''
          exact Or.inr (by simp [h''])
    · exact Or.inr (List.mem_cons_of_mem _ h')

/-- What a successful `processRef` guarantees about its input and
output: the (trimmed) raw reference was not skipped as an anchor or
non-HTTP URI, it parsed, its resolution against the base has an empty
host or the base's host, and the emitted path is the resolved path with
trailing slashes and one leading slash stripped — and non-empty. -/
theorem processRef_some {base : GoURL} {raw p : Chars}
    (h : processRef base raw = some p) :
    skipRef (trimSpaceChars raw) = false ∧
    ∃ ref, parseURL (trimSpaceChars raw) = some ref ∧
      ((resolveReference base ref).host = [] ∨
        (resolveReference base ref).host = base.host) ∧
      (let stripped := (((resolveReference base ref).path.reverse.dropWhile
          (fun c => c == '/')).reverse)
       stripped ≠ [] ∧
         p = (match stripped with
              | '/' :: rest => rest
              | _ => stripped) ∧
         p ≠ []) := by
  simp only [processRef] at h
  split at h
  · exact absurd h (by simp)
  · rename_i hskip
    split at h
    · exact absurd h (by simp)
    · rename_i ref href
      refine ⟨Bool.eq_false_iff.mpr hskip, ref, href, ?_⟩
      split at h
      · exact absurd h (by simp)
      · rename_i hhost
        constructor
        · rcases Decidable.em
              ((resolveReference base ref).host = []) with he | he
          · exact Or.inl he
          · right
            by_contra hne
            exact hhost ⟨he, hne⟩
        · split at h
          · exact absurd h (by simp)
          · rename_i hstr
            split at h
            · exact absurd h (by simp)
            · rename_i hp
              simp only [Option.some.injEq] at h
              subst h
              exact ⟨hstr, rfl, hp⟩

/-- C6 (confirmed).  Soundness: every path emitted by `ExtractPaths`
comes from some raw `href`/`src`/`action` attribute value that (after
trimming) does not start with `javascript:`, `mailto:`, `data:`
(case-insensitively) or `#`, parses as a URL, and resolves against the
base to a host that is empty or equal to the base host; the emitted path
is never empty.  Concrete case: the spec's example body against
`http://example.com` yields exactly `admin`, `login`,
`images/logo.png` (the claim's set `{admin, images/logo.png, login}`;
emission order is href-attributes first, then src). -/
theorem link_extraction_sound :
    (∀ (body baseURL p : Chars), p ∈ extractPaths body baseURL →
      ∃ base, parseURL baseURL = some base ∧
        ∃ raw, raw ∈ rawRefs body ∧
          ("javascript:".toList.isPrefixOf
              (lowerChars (trimSpaceChars raw)) = false) ∧
          ("mailto:".toList.isPrefixOf
              (lowerChars (trimSpaceChars raw)) = false) ∧
          ("data:".toList.isPrefixOf
              (lowerChars (trimSpaceChars raw)) = false) ∧
          ("#".toList.isPrefixOf (trimSpaceChars raw) = false) ∧
          ∃ ref, parseURL (trimSpaceChars raw) = some ref ∧
            ((resolveReference base ref).host = [] ∨
              (resolveReference base ref).host = base.host) ∧
            p ≠ []) ∧
    extractPaths
      ("<a href=\"/admin\">x</a> <a href=\"login\">y</a> <img src=\"/images/logo.png\"> <a href=\"#top\"> <a href=\"javascript:...\">").toList
      ("http://example.com").toList
      = [("admin").toList, ("login").toList, ("images/logo.png").toList] := by
  constructor
  · intro body baseURL p hp
    simp only [extractPaths] at hp
    split at hp
    · simp at hp
    · rename_i base hbase
      unfold dedupKeepFirst at hp
      rcases mem_foldl_dedup _ [] p hp with h0 | h0
      · simp at h0
      · rcases List.mem_filterMap.mp h0 with ⟨raw, hraw, hproc⟩
        rcases processRef_some hproc with ⟨hskip, ref, href, hhost, hrest⟩
        simp only [skipRef, Bool.or_eq_false_iff] at hskip
        exact ⟨base, hbase, raw, hraw, hskip.1.1.1, hskip.1.1.2, hskip.1.2,
          hskip.2, ref, href, hhost, hrest.2.2⟩
  · decide

/-- Witness for C6: instantiating the soundness statement at the body
`<a href="/admin">` with base `http://example.com` and the emitted path
`admin`. -/
theorem link_extraction_sound_witness :
    ∃ base, parseURL ("http://example.com").toList = some base ∧
      ∃ raw, raw ∈ rawRefs ("<a href=\"/admin\">").toList ∧
        ("javascript:".toList.isPrefixOf
            (lowerChars (trimSpaceChars raw)) = false) ∧
        ("mailto:".toList.isPrefixOf
            (lowerChars (trimSpaceChars raw)) = false) ∧
        ("data:".toList.isPrefixOf
            (lowerChars (trimSpaceChars raw)) = false) ∧
        ("#".toList.isPrefixOf (trimSpaceChars raw) = false) ∧
        ∃ ref, parseURL (trimSpaceChars raw) = some ref ∧
          ((resolveReference base ref).host = [] ∨
            (resolveReference base ref).host = base.host) ∧
          ("admin").toList ≠ [] :=
  link_extraction_sound.1 ("<a href=\"/admin\">").toList
    ("http://example.com").toList ("admin").toList (by decide)
